import Mathlib

/-
Verification of the RAG pipeline core of this repository:
chunking (document_processor.py), embedding batch handling (embeddings.py),
vector store adapter (vector_store.py) and the retriever orchestrator
(retriever.py).

External collaborators (the tiktoken tokenizer, the OpenAI embedding and
completion providers, the Qdrant client) are modelled as parameters of the
embedded functions: the tokenizer is an arbitrary function from strings to
naturals, the providers are arbitrary functions, and the Qdrant collection
and point state is explicit.  Floating point scores are never computed on
by the code under verification, so they are carried as opaque integer
tokens.

The Python string methods used by the code (str.strip, str.split with a
separator, single-character str.replace, str.endswith of a single
character) are embedded as structurally recursive functions on character
lists so that every definition evaluates inside the kernel.
-/

namespace RAG

/-! ## Python string primitives -/

/-- Python text.replace of a newline by a space: single-character
    replacement is a pointwise map. -/
def replaceNl (s : String) : String :=
  ⟨s.data.map (fun c => if c = '\n' then ' ' else c)⟩

/-- Python str.strip(): remove leading and trailing whitespace. -/
def pyStrip (s : String) : String :=
  ⟨((s.data.dropWhile Char.isWhitespace).reverse.dropWhile
      Char.isWhitespace).reverse⟩

/-- Python str.split with the two-character separator of a period followed
    by a space: scan left to right, cutting at each non-overlapping
    occurrence of the separator.  The accumulator holds the current field
    reversed. -/
def splitDotSpaceAux : List Char → List Char → List (List Char)
  | [], acc => [acc.reverse]
  | '.' :: ' ' :: rest, acc => acc.reverse :: splitDotSpaceAux rest []
  | c :: rest, acc => splitDotSpaceAux rest (c :: acc)

/-- The sentence-like units of chunk_text: normalize newlines to spaces,
    then split on period+space (document_processor.py line 61). -/
def sentenceUnits (text : String) : List String :=
  (splitDotSpaceAux (replaceNl text).data []).map (fun l => ⟨l⟩)

/-! ## Chunker: src/phase1-foundation/rag_pipeline/document_processor.py -/

/-- A chunk as produced by DocumentProcessor.chunk_text: the dict
    with keys text, token_count and metadata. -/
structure Chunk where
  text : String
  token_count : Nat
  metadata : List (String × String)
deriving DecidableEq, Repr

/-- The DocumentProcessor object state set up in its constructor:
    self.chunk_size and self.chunk_overlap. -/
structure DocumentProcessor where
  chunk_size : Nat
  chunk_overlap : Nat
deriving DecidableEq, Repr

/-- Python " ".join(l). -/
def joinSp : List String → String
  | [] => ""
  | [s] => s
  | s :: r => s ++ " " ++ joinSp r

/-- Python l[-2:]: the last two elements of a list (the whole list when it
    has fewer than two elements). -/
def last2 (l : List String) : List String := l.drop (l.length - 2)

/-- The per-sentence normalisation in chunk_text lines 68-74: strip the
    unit, then append a period when it does not already end with one
    (sentence.endswith of a period, tested on the last character). -/
def pySent (s : String) : String :=
  let t := pyStrip s
  if t.data.getLast? = some '.' then t else t ++ "."

/-- The intermediate loop state of chunk_text: the chunks list built so
    far, the current_chunk list of accumulated parts, and
    current_token_count. -/
structure ChunkState where
  chunks : List Chunk
  current : List String
  cnt : Nat
deriving DecidableEq, Repr

/-- One iteration of the sentence loop in chunk_text (lines 67-93 of
    document_processor.py), with the tokenizer tc as an explicit
    parameter standing for self.count_tokens. -/
def processSentence (tc : String → Nat) (size : Nat)
    (meta : List (String × String)) (st : ChunkState) (s0 : String) :
    ChunkState :=
  if pyStrip s0 = "" then st
  else
    let s := pySent s0
    let sTok := tc s
    if size < st.cnt + sTok ∧ st.current ≠ [] then
      let overlap := joinSp (last2 st.current)
      let newCur := if overlap = "" then [s] else [overlap, s]
      ⟨st.chunks ++ [⟨joinSp st.current, st.cnt, meta⟩], newCur,
        tc (joinSp newCur)⟩
    else
      ⟨st.chunks, st.current ++ [s], st.cnt + sTok⟩

/-- DocumentProcessor.chunk_text.  The tokenizer tc stands for
    self.count_tokens (tiktoken, an external collaborator).  The body
    reads self.chunk_size only; self.chunk_overlap is never consulted,
    exactly as in the source.  The Python default metadata handling
    (metadata or the empty dict) is collapsed into a plain list-valued
    metadata argument, which is observationally identical. -/
def DocumentProcessor.chunk_text (dp : DocumentProcessor)
    (tc : String → Nat) (text : String) (meta : List (String × String)) :
    List Chunk :=
  if pyStrip text = "" then []
  else
    let st := (sentenceUnits text).foldl
      (processSentence tc dp.chunk_size meta) ⟨[], [], 0⟩
    if st.current = [] then st.chunks
    else st.chunks ++ [⟨joinSp st.current, st.cnt, meta⟩]

/-- A simple exact tokenizer used to instantiate the theorems: one token
    per space-separated field, counted as the number of spaces plus one.
    It is additive over single-space joins. -/
def wordCount (s : String) : Nat := (s.data.filter (fun c => c = ' ')).length + 1

/-- A second concrete tokenizer, not additive over single-space joins:
    the number of characters. -/
def charCount (s : String) : Nat := s.length


theorem strExt {a b : String} (h : a.data = b.data) : a = b :=
  congrArg String.mk h

theorem strDataAppend (a b : String) : (a ++ b).data = a.data ++ b.data := by
  cases a; cases b; rfl

theorem strAssoc (a b c : String) : a ++ b ++ c = a ++ (b ++ c) := by
  apply strExt
  simp [strDataAppend, List.append_assoc]

theorem joinSp_concat : ∀ (l : List String) (s : String), l ≠ [] →
    joinSp (l ++ [s]) = joinSp l ++ " " ++ s
  | [], s, h => absurd rfl h
  | [a], _, _ => rfl
  | a :: b :: r, s, _ => by
      have ih := joinSp_concat (b :: r) s (by simp)
      show a ++ " " ++ joinSp (b :: r ++ [s]) =
        a ++ " " ++ joinSp (b :: r) ++ " " ++ s
      rw [ih]
      simp [strAssoc]

/-- The invariant of the chunk_text loop state used for the token bound:
    an empty current chunk has a zero running count, and the running count
    is within the budget or is the exact token count of the joined
    current chunk. -/
def InvA (tc : String → Nat) (size : Nat) (st : ChunkState) : Prop :=
  (st.current = [] → st.cnt = 0) ∧
  (st.cnt ≤ size ∨ st.cnt = tc (joinSp st.current))

theorem processSentence_invA (tc : String → Nat) (size : Nat)
    (meta : List (String × String)) (st : ChunkState) (s0 : String)
    (hInv : InvA tc size st) :
    InvA tc size (processSentence tc size meta st s0) ∧
    ∀ c ∈ (processSentence tc size meta st s0).chunks,
      c ∈ st.chunks ∨ (c.token_count ≤ size ∨ c.token_count = tc c.text) := by
  simp only [processSentence]
  by_cases h0 : pyStrip s0 = ""
  · rw [if_pos h0]
    exact ⟨hInv, fun c hc => Or.inl hc⟩
  · rw [if_neg h0]
    by_cases h1 : size < st.cnt + tc (pySent s0) ∧ st.current ≠ []
    · rw [if_pos h1]
      refine ⟨⟨?_, ?_⟩, ?_⟩
      · intro hcur
        exfalso
        by_cases h2 : joinSp (last2 st.current) = "" <;>
          simp only [h2, if_true, if_false, reduceIte] at hcur <;>
          simp at hcur
      · right
        rfl
      · intro c hc
        dsimp only at hc
        rcases List.mem_append.mp hc with h | h
        · exact Or.inl h
        · rcases List.mem_singleton.mp h with rfl
          exact Or.inr hInv.2
    · rw [if_neg h1]
      refine ⟨⟨fun hcur => absurd hcur (by simp), ?_⟩,
        fun c hc => Or.inl hc⟩
      dsimp only
      rcases not_and_or.mp h1 with h | h
      · left
        omega
      · have hc0 : st.current = [] := not_ne_iff.mp h
        rw [hc0, hInv.1 hc0]
        right
        show 0 + tc (pySent s0) = tc (joinSp [pySent s0])
        rw [Nat.zero_add]
        rfl

theorem foldl_invA (tc : String → Nat) (size : Nat)
    (meta : List (String × String)) (l : List String) (st : ChunkState)
    (hInv : InvA tc size st) :
    InvA tc size (l.foldl (processSentence tc size meta) st) ∧
    ∀ c ∈ (l.foldl (processSentence tc size meta) st).chunks,
      c ∈ st.chunks ∨ (c.token_count ≤ size ∨ c.token_count = tc c.text) := by
  induction l generalizing st with
  | nil => exact ⟨hInv, fun c hc => Or.inl hc⟩
  | cons a r ih =>
    have hstep := processSentence_invA tc size meta st a hInv
    have hrec := ih (processSentence tc size meta st a) hstep.1
    refine ⟨hrec.1, fun c hc => ?_⟩
    rcases hrec.2 c hc with h | h
    · rcases hstep.2 c h with h2 | h2
      · exact Or.inl h2
      · exact Or.inr h2
    · exact Or.inr h


/-- The invariant of the chunk_text loop state under an additive
    tokenizer: the running count is exactly the token count of the joined
    current chunk. -/
def InvB (tc : String → Nat) (st : ChunkState) : Prop :=
  (st.current = [] → st.cnt = 0) ∧
  (st.current ≠ [] → st.cnt = tc (joinSp st.current))

theorem processSentence_invB (tc : String → Nat) (size : Nat)
    (meta : List (String × String)) (st : ChunkState) (s0 : String)
    (hadd : ∀ a b : String, tc (a ++ " " ++ b) = tc a + tc b)
    (hInv : InvB tc st) :
    InvB tc (processSentence tc size meta st s0) ∧
    ∀ c ∈ (processSentence tc size meta st s0).chunks,
      c ∈ st.chunks ∨ c.token_count = tc c.text := by
  simp only [processSentence]
  by_cases h0 : pyStrip s0 = ""
  · rw [if_pos h0]
    exact ⟨hInv, fun c hc => Or.inl hc⟩
  · rw [if_neg h0]
    by_cases h1 : size < st.cnt + tc (pySent s0) ∧ st.current ≠ []
    · rw [if_pos h1]
      refine ⟨⟨?_, ?_⟩, ?_⟩
      · intro hcur
        exfalso
        by_cases h2 : joinSp (last2 st.current) = "" <;>
          simp only [h2, if_true, if_false, reduceIte] at hcur <;>
          simp at hcur
      · intro _
        rfl
      · intro c hc
        dsimp only at hc
        rcases List.mem_append.mp hc with h | h
        · exact Or.inl h
        · rcases List.mem_singleton.mp h with rfl
          exact Or.inr (hInv.2 h1.2)
    · rw [if_neg h1]
      refine ⟨⟨fun hcur => absurd hcur (by simp), ?_⟩,
        fun c hc => Or.inl hc⟩
      dsimp only
      intro _
      by_cases hc0 : st.current = []
      · rw [hc0, hInv.1 hc0]
        show 0 + tc (pySent s0) = tc (joinSp [pySent s0])
        rw [Nat.zero_add]
        rfl
      · rw [hInv.2 hc0, joinSp_concat st.current (pySent s0) hc0, hadd]

theorem foldl_invB (tc : String → Nat) (size : Nat)
    (meta : List (String × String)) (l : List String) (st : ChunkState)
    (hadd : ∀ a b : String, tc (a ++ " " ++ b) = tc a + tc b)
    (hInv : InvB tc st) :
    InvB tc (l.foldl (processSentence tc size meta) st) ∧
    ∀ c ∈ (l.foldl (processSentence tc size meta) st).chunks,
      c ∈ st.chunks ∨ c.token_count = tc c.text := by
  induction l generalizing st with
  | nil => exact ⟨hInv, fun c hc => Or.inl hc⟩
  | cons a r ih =>
    have hstep := processSentence_invB tc size meta st a hadd hInv
    have hrec := ih (processSentence tc size meta st a) hstep.1
    refine ⟨hrec.1, fun c hc => ?_⟩
    rcases hrec.2 c hc with h | h
    · rcases hstep.2 c h with h2 | h2
      · exact Or.inl h2
      · exact Or.inr h2
    · exact Or.inr h

/-- Every chunk of the output is either one of the chunks accumulated by
    the loop or the final flush of the remaining current chunk. -/
theorem chunk_text_mem (dp : DocumentProcessor) (tc : String → Nat)
    (text : String) (meta : List (String × String)) (c : Chunk)
    (hc : c ∈ dp.chunk_text tc text meta) :
    c ∈ ((sentenceUnits text).foldl
        (processSentence tc dp.chunk_size meta) ⟨[], [], 0⟩).chunks ∨
    (((sentenceUnits text).foldl
        (processSentence tc dp.chunk_size meta) ⟨[], [], 0⟩).current ≠ [] ∧
      c = ⟨joinSp ((sentenceUnits text).foldl
            (processSentence tc dp.chunk_size meta) ⟨[], [], 0⟩).current,
          ((sentenceUnits text).foldl
            (processSentence tc dp.chunk_size meta) ⟨[], [], 0⟩).cnt,
          meta⟩) := by
  simp only [DocumentProcessor.chunk_text] at hc
  by_cases ht : pyStrip text = ""
  · rw [if_pos ht] at hc
    simp at hc
  · rw [if_neg ht] at hc
    by_cases hcur : ((sentenceUnits text).foldl
        (processSentence tc dp.chunk_size meta) ⟨[], [], 0⟩).current = []
    · rw [if_pos hcur] at hc
      exact Or.inl hc
    · rw [if_neg hcur] at hc
      rcases List.mem_append.mp hc with h | h
      · exact Or.inl h
      · exact Or.inr ⟨hcur, List.mem_singleton.mp h⟩

/-- Claim C1 (amended): every chunk produced by chunk_text either has
    token_count at most chunk_size, or its recorded token_count is
    exactly the tokenizer count of the chunk's entire text (the chunk is
    an atomic block the algorithm did not split: a leading oversized
    sentence, or an overlap seed together with the sentence that
    triggered the overflow).  Moreover, whenever the tokenizer is
    additive over single-space joins, the recorded token_count field of
    each chunk equals the tokenizer count of the chunk's text. -/
theorem C1_amended (tc : String → Nat) (dp : DocumentProcessor)
    (text : String) (meta : List (String × String)) :
    (∀ c ∈ dp.chunk_text tc text meta,
      c.token_count ≤ dp.chunk_size ∨ c.token_count = tc c.text) ∧
    ((∀ a b : String, tc (a ++ " " ++ b) = tc a + tc b) →
      ∀ c ∈ dp.chunk_text tc text meta, c.token_count = tc c.text) := by
  constructor
  · intro c hc
    have hfold := foldl_invA tc dp.chunk_size meta (sentenceUnits text)
      ⟨[], [], 0⟩ ⟨fun _ => rfl, Or.inl (Nat.zero_le _)⟩
    rcases chunk_text_mem dp tc text meta c hc with h | ⟨_, rfl⟩
    · rcases hfold.2 c h with h2 | h2
      · simp at h2
      · exact h2
    · exact hfold.1.2
  · intro hadd c hc
    have hfold := foldl_invB tc dp.chunk_size meta (sentenceUnits text)
      ⟨[], [], 0⟩ hadd ⟨fun _ => rfl, fun h => absurd rfl h⟩
    rcases chunk_text_mem dp tc text meta c hc with h | ⟨hne, rfl⟩
    · rcases hfold.2 c h with h2 | h2
      · simp at h2
      · exact h2
    · exact hfold.1.2 hne

/-- Claim C1 as stated is false on the code: with a tokenizer counting
    space-separated words and chunk_size 3, the input of four two-word
    sentences yields a second chunk of two sentences whose token_count 4
    exceeds 3, and with a character-count tokenizer the recorded
    token_count 6 of the single chunk differs from the count 7 of its
    text (the running sum never accounts for the joining spaces). -/
theorem C1_counterexample :
    (¬ ∀ c ∈ (⟨3, 200⟩ : DocumentProcessor).chunk_text wordCount
        "a b. a b. a b. a b" [],
      (c.token_count ≤ 3 ∨
        ((sentenceUnits c.text).length = 1 ∧ 3 < wordCount c.text)) ∧
        c.token_count = wordCount c.text) ∧
    (¬ ∀ c ∈ (⟨100, 200⟩ : DocumentProcessor).chunk_text charCount
        "ab. cd" [],
      (c.token_count ≤ 100 ∨
        ((sentenceUnits c.text).length = 1 ∧ 100 < charCount c.text)) ∧
        c.token_count = charCount c.text) := by
  decide

/-- Witness for C1_amended: the word-count tokenizer is additive over
    single-space joins, and on a concrete two-sentence input every chunk
    records exactly the word count of its text. -/
theorem C1_amended_witness :
    (∀ a b : String, wordCount (a ++ " " ++ b) = wordCount a + wordCount b) ∧
    ∀ c ∈ (⟨3, 200⟩ : DocumentProcessor).chunk_text wordCount "a b. a b" [],
      c.token_count = wordCount c.text := by
  have hadd : ∀ a b : String,
      wordCount (a ++ " " ++ b) = wordCount a + wordCount b := by
    intro a b
    have hsp : (" " : String).data = [' '] := rfl
    simp [wordCount, strDataAppend, hsp, List.filter_append]
    omega
  exact ⟨hadd, (C1_amended wordCount ⟨3, 200⟩ "a b. a b" []).2 hadd⟩


/-! ## Claim C2: sentence coverage -/

/-- a occurs contiguously inside b. -/
def isSubstr (a b : String) : Prop :=
  ∃ p q : List Char, b.data = p ++ a.data ++ q

theorem isSubstr_refl (a : String) : isSubstr a a :=
  ⟨[], [], by simp⟩

theorem isSubstr_trans {a b c : String} (h1 : isSubstr a b)
    (h2 : isSubstr b c) : isSubstr a c := by
  obtain ⟨p1, q1, e1⟩ := h1
  obtain ⟨p2, q2, e2⟩ := h2
  exact ⟨p2 ++ p1, q1 ++ q2, by rw [e2, e1]; simp⟩

theorem isSubstr_append_right {a b : String} (c : String)
    (h : isSubstr a b) : isSubstr a (b ++ c) := by
  obtain ⟨p, q, e⟩ := h
  exact ⟨p, q ++ c.data, by rw [strDataAppend, e]; simp⟩

theorem isSubstr_append_left {a b : String} (c : String)
    (h : isSubstr a b) : isSubstr a (c ++ b) := by
  obtain ⟨p, q, e⟩ := h
  exact ⟨c.data ++ p, q, by rw [strDataAppend, e]; simp⟩

theorem isSubstr_empty {a : String} (h : isSubstr a "") : a = "" := by
  obtain ⟨p, q, e⟩ := h
  have h3 : p = [] ∧ a.data = [] ∧ q = [] := by simpa using e.symm
  exact strExt (by rw [h3.2.1])

/-- A member of a list is a substring of the space-join of the list. -/
theorem isSubstr_joinSp : ∀ (l : List String) (s : String), s ∈ l →
    isSubstr s (joinSp l)
  | [], _, h => absurd h (by simp)
  | [a], s, h => by
      rw [List.mem_singleton.mp h]
      exact isSubstr_refl a
  | a :: b :: r, s, h => by
      rcases List.mem_cons.mp h with rfl | h2
      · show isSubstr s (s ++ " " ++ joinSp (b :: r))
        exact isSubstr_append_right _ (isSubstr_append_right _ (isSubstr_refl s))
      · show isSubstr s (a ++ " " ++ joinSp (b :: r))
        exact isSubstr_append_left _ (isSubstr_joinSp (b :: r) s h2)

/-- The stripped unit is a substring of its normalised sentence. -/
theorem isSubstr_pySent (u : String) : isSubstr (pyStrip u) (pySent u) := by
  unfold pySent
  by_cases h : (pyStrip u).data.getLast? = some '.'
  · rw [if_pos h]
    exact isSubstr_refl _
  · rw [if_neg h]
    exact isSubstr_append_right _ (isSubstr_refl _)

/-- u is recorded somewhere in the loop state: inside an already closed
    chunk, or inside the join of the accumulating current chunk. -/
def CoveredIn (u : String) (st : ChunkState) : Prop :=
  (∃ c ∈ st.chunks, isSubstr u c.text) ∨ isSubstr u (joinSp st.current)

theorem covered_mono (tc : String → Nat) (size : Nat)
    (meta : List (String × String)) (st : ChunkState) (s0 u : String)
    (h : CoveredIn u st) :
    CoveredIn u (processSentence tc size meta st s0) := by
  simp only [processSentence]
  by_cases h0 : pyStrip s0 = ""
  · rw [if_pos h0]
    exact h
  · rw [if_neg h0]
    by_cases h1 : size < st.cnt + tc (pySent s0) ∧ st.current ≠ []
    · rw [if_pos h1]
      left
      rcases h with ⟨c, hc, hsub⟩ | hsub
      · exact ⟨c, by simp [hc], hsub⟩
      · exact ⟨⟨joinSp st.current, st.cnt, meta⟩, by simp, hsub⟩
    · rw [if_neg h1]
      rcases h with ⟨c, hc, hsub⟩ | hsub
      · exact Or.inl ⟨c, hc, hsub⟩
      · right
        dsimp only
        by_cases hcur : st.current = []
        · rw [hcur] at hsub
          rw [hcur, isSubstr_empty hsub]
          exact ⟨[], (joinSp ([] ++ [pySent s0])).data, by simp⟩
        · rw [joinSp_concat st.current (pySent s0) hcur, strAssoc]
          exact isSubstr_append_right _ hsub

theorem covered_new (tc : String → Nat) (size : Nat)
    (meta : List (String × String)) (st : ChunkState) (s0 : String)
    (h0 : pyStrip s0 ≠ "") :
    CoveredIn (pyStrip s0) (processSentence tc size meta st s0) := by
  simp only [processSentence]
  rw [if_neg h0]
  have hsent : isSubstr (pyStrip s0) (pySent s0) := isSubstr_pySent s0
  by_cases h1 : size < st.cnt + tc (pySent s0) ∧ st.current ≠ []
  · rw [if_pos h1]
    right
    dsimp only
    by_cases h2 : joinSp (last2 st.current) = ""
    · rw [if_pos h2]
      exact isSubstr_trans hsent (isSubstr_joinSp _ _ (by simp))
    · rw [if_neg h2]
      exact isSubstr_trans hsent (isSubstr_joinSp _ _ (by simp))
  · rw [if_neg h1]
    right
    dsimp only
    exact isSubstr_trans hsent (isSubstr_joinSp _ _ (by simp))

theorem covered_foldl_mono (tc : String → Nat) (size : Nat)
    (meta : List (String × String)) (l : List String) (st : ChunkState)
    (u : String) (h : CoveredIn u st) :
    CoveredIn u (l.foldl (processSentence tc size meta) st) := by
  induction l generalizing st with
  | nil => exact h
  | cons a r ih => exact ih _ (covered_mono tc size meta st a u h)

theorem covered_foldl_new (tc : String → Nat) (size : Nat)
    (meta : List (String × String)) (l : List String) (st : ChunkState)
    (u : String) (hu : u ∈ l) (h0 : pyStrip u ≠ "") :
    CoveredIn (pyStrip u) (l.foldl (processSentence tc size meta) st) := by
  induction l generalizing st with
  | nil => exact absurd hu (by simp)
  | cons a r ih =>
    rcases List.mem_cons.mp hu with rfl | h2
    · exact covered_foldl_mono tc size meta r _ _
        (covered_new tc size meta st u h0)
    · exact ih _ h2

/-- Claim C2: for every non-empty input text, every sentence-like unit
    (obtained by normalizing newlines to spaces and splitting on
    period+space) that carries content, i.e. is non-empty after
    stripping, appears in at least one chunk returned by chunk_text: no
    sentence is dropped, which is the sense in which the concatenation of
    the chunks covers the original content up to overlap duplication. -/
theorem C2_coverage (dp : DocumentProcessor) (tc : String → Nat)
    (text : String) (meta : List (String × String))
    (htext : pyStrip text ≠ "") :
    ∀ u ∈ sentenceUnits text, pyStrip u ≠ "" →
      ∃ c ∈ dp.chunk_text tc text meta, isSubstr (pyStrip u) c.text := by
  intro u hu h0
  have hcov := covered_foldl_new tc dp.chunk_size meta (sentenceUnits text)
    ⟨[], [], 0⟩ u hu h0
  simp only [DocumentProcessor.chunk_text]
  rw [if_neg htext]
  set stF := (sentenceUnits text).foldl
    (processSentence tc dp.chunk_size meta) ⟨[], [], 0⟩ with hstF
  rcases hcov with ⟨c, hc, hsub⟩ | hsub
  · by_cases hcur : stF.current = []
    · rw [if_pos hcur]
      exact ⟨c, hc, hsub⟩
    · rw [if_neg hcur]
      exact ⟨c, List.mem_append.mpr (Or.inl hc), hsub⟩
  · by_cases hcur : stF.current = []
    · rw [hcur] at hsub
      exact absurd (isSubstr_empty hsub) h0
    · rw [if_neg hcur]
      exact ⟨⟨joinSp stF.current, stF.cnt, meta⟩,
        List.mem_append.mpr (Or.inr (by simp)), hsub⟩

/-- Witness for C2_coverage: in the two-sentence input both stripped
    units occur inside the single produced chunk. -/
theorem C2_coverage_witness :
    ∃ c ∈ (⟨100, 200⟩ : DocumentProcessor).chunk_text wordCount
      "Hello. World" [], isSubstr (pyStrip "World") c.text := by
  have h := C2_coverage (⟨100, 200⟩ : DocumentProcessor) wordCount
    "Hello. World" [] (by decide) "World" (by decide) (by decide)
  exact h


/-! ## Claim C3: the overlap seeding policy -/

/-- Modelled from the claim wording for comparison: a chunking loop whose
    overlap seeding keeps the last two sentences of the just-closed chunk
    as separate units (instead of joining the last two accumulated parts
    into one compound part as the code does). -/
def processSentenceSpec (tc : String → Nat) (size : Nat)
    (meta : List (String × String)) (st : ChunkState) (s0 : String) :
    ChunkState :=
  if pyStrip s0 = "" then st
  else
    let s := pySent s0
    if size < st.cnt + tc s ∧ st.current ≠ [] then
      let newCur := last2 st.current ++ [s]
      ⟨st.chunks ++ [⟨joinSp st.current, st.cnt, meta⟩], newCur,
        tc (joinSp newCur)⟩
    else
      ⟨st.chunks, st.current ++ [s], st.cnt + tc s⟩

/-- The chunker that the claim describes: identical to chunk_text except
    that each new chunk is seeded with exactly the last two sentences of
    the just-closed chunk followed by the triggering sentence. -/
def chunkTextSpec (tc : String → Nat) (size : Nat) (text : String)
    (meta : List (String × String)) : List Chunk :=
  if pyStrip text = "" then []
  else
    let st := (sentenceUnits text).foldl
      (processSentenceSpec tc size meta) ⟨[], [], 0⟩
    if st.current = [] then st.chunks
    else st.chunks ++ [⟨joinSp st.current, st.cnt, meta⟩]

/-- Claim C3 as stated is false on the code: on four two-word sentences
    with chunk_size 3 and a word-count tokenizer, the final chunk of
    chunk_text contains all four sentences, while seeding with exactly
    the last two sentences of the just-closed chunk would have produced
    a three-sentence final chunk.  The code joins the last two
    accumulated parts, and the first part of an overlap-seeded chunk is
    itself the whole previous overlap text. -/
theorem C3_counterexample :
    (⟨3, 200⟩ : DocumentProcessor).chunk_text wordCount
        "a b. c d. e f. g h" [] ≠
      chunkTextSpec wordCount 3 "a b. c d. e f. g h" [] := by
  decide

/-- Claim C3 (amended): chunk_overlap never affects the output of
    chunk_text, and whenever chunk_text closes a chunk because adding the
    next sentence would exceed chunk_size, the new chunk is seeded with
    the join of the last two accumulated parts of the just-closed chunk
    followed by the sentence that triggered the overflow.  Those parts
    are single sentences only when the closed chunk was not itself seeded
    and then closed immediately; in general the first part is the
    previous overlap text and can contain several sentences. -/
theorem C3_amended :
    (∀ (tc : String → Nat) (cs o1 o2 : Nat) (text : String)
        (meta : List (String × String)),
      (⟨cs, o1⟩ : DocumentProcessor).chunk_text tc text meta =
        (⟨cs, o2⟩ : DocumentProcessor).chunk_text tc text meta) ∧
    (∀ (tc : String → Nat) (size : Nat) (meta : List (String × String))
        (st : ChunkState) (s0 : String),
      pyStrip s0 ≠ "" →
      size < st.cnt + tc (pySent s0) →
      st.current ≠ [] →
      joinSp (last2 st.current) ≠ "" →
      processSentence tc size meta st s0 =
        ⟨st.chunks ++ [⟨joinSp st.current, st.cnt, meta⟩],
          [joinSp (last2 st.current), pySent s0],
          tc (joinSp [joinSp (last2 st.current), pySent s0])⟩) := by
  constructor
  · intro tc cs o1 o2 text meta
    rfl
  · intro tc size meta st s0 h0 h1 h2 h3
    simp only [processSentence]
    rw [if_neg h0, if_pos ⟨h1, h2⟩, if_neg h3]

/-- Witness for C3_amended: a concrete overflow step seeds the new chunk
    with the joined previous part and the triggering sentence. -/
theorem C3_amended_witness :
    processSentence wordCount 3 [] ⟨[], ["a b."], 2⟩ "c d" =
      ⟨[⟨"a b.", 2, []⟩], ["a b.", "c d."],
        wordCount (joinSp ["a b.", "c d."])⟩ := by
  have h := C3_amended.2 wordCount 3 [] ⟨[], ["a b."], 2⟩ "c d"
    (by decide) (by decide) (by decide) (by decide)
  exact h

/-! ## Claim C9: period normalisation -/

/-- Every sentence produced by the per-sentence normalisation ends with a
    period. -/
theorem pySent_endsDot (s : String) :
    (pySent s).data.getLast? = some '.' := by
  unfold pySent
  by_cases h : (pyStrip s).data.getLast? = some '.'
  · rw [if_pos h]
    exact h
  · rw [if_neg h]
    rw [strDataAppend]
    exact List.getLast?_concat _

/-- The space-join of non-empty period-ended parts ends with a period. -/
theorem joinSp_endsDot : ∀ l : List String, l ≠ [] →
    (∀ x ∈ l, x.data.getLast? = some '.') →
    (joinSp l).data.getLast? = some '.'
  | [], h, _ => absurd rfl h
  | [a], _, hall => hall a (by simp)
  | a :: b :: r, _, hall => by
      have ih := joinSp_endsDot (b :: r) (by simp)
        (fun x hx => hall x (by simp [hx]))
      have hne : (joinSp (b :: r)).data ≠ [] := by
        intro h
        rw [h] at ih
        simp at ih
      show ((a ++ " ") ++ joinSp (b :: r)).data.getLast? = some '.'
      rw [strDataAppend, List.getLast?_append_of_ne_nil _ hne]
      exact ih

/-- last2 keeps a non-empty list non-empty. -/
theorem last2_ne_nil {l : List String} (h : l ≠ []) : last2 l ≠ [] := by
  unfold last2
  intro hdrop
  have hlen := congrArg List.length hdrop
  rw [List.length_drop] at hlen
  have : l.length ≠ 0 := fun h0 => h (List.length_eq_zero.mp h0)
  simp at hlen
  omega

/-- The loop-state invariant for C9: every accumulated part and every
    closed chunk text ends with a period. -/
def InvDot (st : ChunkState) : Prop :=
  (∀ x ∈ st.current, x.data.getLast? = some '.') ∧
  (∀ c ∈ st.chunks, c.text.data.getLast? = some '.')

theorem processSentence_invDot (tc : String → Nat) (size : Nat)
    (meta : List (String × String)) (st : ChunkState) (s0 : String)
    (hInv : InvDot st) : InvDot (processSentence tc size meta st s0) := by
  simp only [processSentence]
  by_cases h0 : pyStrip s0 = ""
  · rw [if_pos h0]
    exact hInv
  · rw [if_neg h0]
    by_cases h1 : size < st.cnt + tc (pySent s0) ∧ st.current ≠ []
    · rw [if_pos h1]
      constructor
      · intro x hx
        dsimp only at hx
        by_cases h2 : joinSp (last2 st.current) = ""
        · rw [if_pos h2] at hx
          rcases List.mem_singleton.mp hx with rfl
          exact pySent_endsDot s0
        · rw [if_neg h2] at hx
          rcases List.mem_cons.mp hx with rfl | hx2
          · exact joinSp_endsDot (last2 st.current) (last2_ne_nil h1.2)
              (fun x hx => hInv.1 x (List.drop_subset _ _ hx))
          · rcases List.mem_singleton.mp hx2 with rfl
            exact pySent_endsDot s0
      · intro c hc
        dsimp only at hc
        rcases List.mem_append.mp hc with h | h
        · exact hInv.2 c h
        · rcases List.mem_singleton.mp h with rfl
          exact joinSp_endsDot st.current h1.2 hInv.1
    · rw [if_neg h1]
      refine ⟨?_, hInv.2⟩
      intro x hx
      dsimp only at hx
      rcases List.mem_append.mp hx with h | h
      · exact hInv.1 x h
      · rcases List.mem_singleton.mp h with rfl
        exact pySent_endsDot s0

theorem foldl_invDot (tc : String → Nat) (size : Nat)
    (meta : List (String × String)) (l : List String) (st : ChunkState)
    (hInv : InvDot st) :
    InvDot (l.foldl (processSentence tc size meta) st) := by
  induction l generalizing st with
  | nil => exact hInv
  | cons a r ih => exact ih _ (processSentence_invDot tc size meta st a hInv)

/-- Claim C9: chunk_text appends a period to every sentence-like unit
    that does not already end with a period (among them units ending in a
    question or exclamation mark), so the text of every produced chunk
    ends with a period; consequently the chunk text need not be a
    substring of the original input, as the input of a question-mark
    sentence shows concretely. -/
theorem C9_period :
    (∀ (dp : DocumentProcessor) (tc : String → Nat) (text : String)
        (meta : List (String × String)), ∀ c ∈ dp.chunk_text tc text meta,
      c.text.data.getLast? = some '.') ∧
    ((⟨10, 200⟩ : DocumentProcessor).chunk_text wordCount "Hi? Bye" [] =
        [⟨"Hi? Bye.", 2, []⟩] ∧
      ¬ isSubstr "Hi? Bye." "Hi? Bye") := by
  refine ⟨?_, by decide, ?_⟩
  · intro dp tc text meta c hc
    have hfold := foldl_invDot tc dp.chunk_size meta (sentenceUnits text)
      ⟨[], [], 0⟩ ⟨by simp, by simp⟩
    rcases chunk_text_mem dp tc text meta c hc with h | ⟨hne, rfl⟩
    · exact hfold.2 c h
    · exact joinSp_endsDot _ hne hfold.1
  · intro hsub
    obtain ⟨p, q, e⟩ := hsub
    have hlen := congrArg List.length e
    have h7 : ("Hi? Bye" : String).data.length = 7 := rfl
    have h8 : ("Hi? Bye." : String).data.length = 8 := rfl
    rw [h7] at hlen
    simp only [List.length_append, h8] at hlen
    omega

/-- Witness for C9_period: the chunk produced from a question-mark input
    ends with a period. -/
theorem C9_period_witness :
    (⟨"Hi? Bye.", 2, []⟩ : Chunk).text.data.getLast? = some '.' :=
  C9_period.1 ⟨10, 200⟩ wordCount "Hi? Bye" [] ⟨"Hi? Bye.", 2, []⟩
    (by decide)


/-! ## Embedding gateway: src/phase1_foundation/rag_pipeline/embeddings.py -/

/-- EmbeddingGenerator.generate_embeddings_batch, with the provider call
    (self.client.embeddings.create) modelled as a function from the
    request list to the response vector list.  Line 64 returns an empty
    list for an empty input; line 68 filters out entries that are empty
    after stripping (Python truthiness of t and t.strip()); line 71
    raises when nothing remains; otherwise the provider response for the
    filtered list is returned. -/
def generate_embeddings_batch {α : Type} (provider : List String → List α)
    (texts : List String) : Except String (List α) :=
  if texts.isEmpty then .ok []
  else
    if (texts.filter (fun t => !(pyStrip t == ""))).isEmpty then
      .error "No valid texts provided for embedding generation"
    else .ok (provider (texts.filter (fun t => !(pyStrip t == ""))))

/-- Claim C5 as stated is false on the code: for the empty input list
    nothing remains after dropping empty entries, yet
    generate_embeddings_batch returns an empty success instead of
    failing, because the code returns early before filtering. -/
theorem C5_counterexample :
    (([] : List String).filter (fun t => !(pyStrip t == "")) = []) ∧
    generate_embeddings_batch (fun l => l.map charCount) [] =
      Except.ok [] :=
  ⟨rfl, rfl⟩

/-- Claim C5 (amended): for an empty input list, embed_batch returns an
    empty vector list without error; for a non-empty input it drops the
    entries that are empty after trimming, fails if nothing remains, and
    otherwise returns one vector per remaining text, order-preserving
    and of the same length as the filtered list, assuming the provider
    returns one embedding per requested text. -/
theorem C5_amended {α : Type} (g : String → α) (texts : List String) :
    (texts = [] →
      generate_embeddings_batch (fun l => l.map g) texts = .ok []) ∧
    (texts ≠ [] → texts.filter (fun t => !(pyStrip t == "")) = [] →
      generate_embeddings_batch (fun l => l.map g) texts =
        .error "No valid texts provided for embedding generation") ∧
    (texts ≠ [] → texts.filter (fun t => !(pyStrip t == "")) ≠ [] →
      ∃ vs, generate_embeddings_batch (fun l => l.map g) texts = .ok vs ∧
        vs.length = (texts.filter (fun t => !(pyStrip t == ""))).length ∧
        ∀ (i : Nat) (h1 : i < vs.length)
          (h2 : i < (texts.filter (fun t => !(pyStrip t == ""))).length),
          vs.get ⟨i, h1⟩ =
            g ((texts.filter (fun t => !(pyStrip t == ""))).get ⟨i, h2⟩)) := by
  refine ⟨?_, ?_, ?_⟩
  · rintro rfl
    rfl
  · intro hne hfil
    unfold generate_embeddings_batch
    rw [if_neg (by simp [hne]), if_pos (by simp [hfil])]
  · intro hne hfil
    refine ⟨(texts.filter (fun t => !(pyStrip t == ""))).map g, ?_, by simp, ?_⟩
    · unfold generate_embeddings_batch
      rw [if_neg (by simp [hne]), if_neg (by simp [hfil])]
    · intro i h1 h2
      simp

/-- Witness for C5_amended: a batch containing one empty and one
    non-empty text yields exactly one vector, that of the surviving
    text. -/
theorem C5_amended_witness :
    ∃ vs, generate_embeddings_batch (fun l => l.map charCount) ["", "hi"] =
        Except.ok vs ∧
      vs.length = ((["", "hi"] : List String).filter
        (fun t => !(pyStrip t == ""))).length ∧
      ∀ (i : Nat) (h1 : i < vs.length)
        (h2 : i < ((["", "hi"] : List String).filter
          (fun t => !(pyStrip t == ""))).length),
        vs.get ⟨i, h1⟩ = charCount (((["", "hi"] : List String).filter
          (fun t => !(pyStrip t == ""))).get ⟨i, h2⟩) :=
  (C5_amended charCount ["", "hi"]).2.2 (by decide) (by decide)

/-! ## Vector index adapter: src/phase1_foundation/rag_pipeline/vector_store.py -/

/-- A Qdrant collection as visible through the adapter: its name and the
    vector dimensionality it was created with (the distance metric is
    hardcoded to cosine at creation and never branches, so it is not
    carried). -/
structure QdrantCollection where
  name : String
  vector_size : Nat
deriving DecidableEq, Repr

/-- VectorStore.create_collection over the explicit collection list of
    the client: look the name up in get_collections, return unchanged
    when present, otherwise append a collection with the given vector
    size. -/
def VectorStore.create_collection (collections : List QdrantCollection)
    (collection_name : String) (vector_size : Nat) :
    List QdrantCollection :=
  if collections.any (fun c => c.name == collection_name) then collections
  else collections ++ [⟨collection_name, vector_size⟩]

/-- Claim C6: create_collection is idempotent: after one call the
    collection exists by name, and calling it again with the same name
    (whatever vector size is requested) leaves the collection list
    unchanged, creating no duplicate. -/
theorem C6_idempotent (collections : List QdrantCollection)
    (collection_name : String) (v1 v2 : Nat) :
    (VectorStore.create_collection collections collection_name v1).any
        (fun c => c.name == collection_name) = true ∧
    VectorStore.create_collection
        (VectorStore.create_collection collections collection_name v1)
        collection_name v2 =
      VectorStore.create_collection collections collection_name v1 := by
  have hany : (VectorStore.create_collection collections collection_name
      v1).any (fun c => c.name == collection_name) = true := by
    unfold VectorStore.create_collection
    by_cases h : collections.any (fun c => c.name == collection_name) = true
    · rw [if_pos h]
      exact h
    · rw [if_neg h]
      simp
  refine ⟨hany, ?_⟩
  conv_lhs => rw [VectorStore.create_collection]
  rw [if_pos hany]


/-- A stored point of the collection: id, vector and the payload dict of
    text and metadata.  The uuid4 identifier generation of
    add_documents is abstracted by a strictly increasing counter, which
    models its freshness and uniqueness. -/
structure StoredPoint where
  id : Nat
  vector : List Int
  payload_text : String
  payload_metadata : List (String × String)
deriving DecidableEq, Repr

/-- The point state of one collection together with the id counter. -/
structure Store where
  points : List StoredPoint
  nextId : Nat
deriving DecidableEq, Repr

/-- Python truthiness of an optional list argument: None and the empty
    list are falsy. -/
def pyTruthy {β : Type} (m : Option (List β)) : Bool :=
  match m with
  | none => false
  | some l => !l.isEmpty

/-- The point-construction loop of add_documents (lines 88-103): for
    each text/embedding pair in order, a point with a fresh id and the
    payload of the text and of metadata at the same index when metadata
    is truthy, or an empty dict otherwise. -/
def buildPoints (useMeta : Bool) : Nat → List String → List (List Int) →
    List (List (String × String)) → List StoredPoint
  | _, [], _, _ => []
  | _, _ :: _, [], _ => []
  | i, t :: ts, e :: es, ms =>
    ⟨i, e, t, if useMeta then ms.getD 0 [] else []⟩ ::
      buildPoints useMeta (i + 1) ts es ms.tail

/-- VectorStore.add_documents: the two length guards of lines 81-85
    (the metadata guard is skipped when metadata is falsy, exactly as the
    Python conjunction does), then a single upsert appending the freshly
    built points. -/
def VectorStore.add_documents (store : Store) (texts : List String)
    (embeddings : List (List Int))
    (metadata : Option (List (List (String × String)))) :
    Except String Store :=
  if texts.length ≠ embeddings.length then
    .error "Number of texts and embeddings must match"
  else if pyTruthy metadata = true ∧
      (metadata.getD []).length ≠ texts.length then
    .error "Number of metadata items must match number of texts"
  else
    .ok ⟨store.points ++
      buildPoints (pyTruthy metadata) store.nextId texts embeddings
        (metadata.getD []),
      store.nextId + texts.length⟩

/-- The ids assigned by the construction loop are consecutive starting
    at the counter. -/
theorem buildPoints_ids (u : Bool) :
    ∀ (ts : List String) (es : List (List Int))
      (ms : List (List (String × String))) (i : Nat),
      ts.length = es.length →
      (buildPoints u i ts es ms).map (fun p => p.id) =
        List.range' i ts.length
  | [], es, ms, i, _ => by
      cases es <;> rfl
  | t :: ts, [], ms, i, h => by
      simp at h
  | t :: ts, e :: es, ms, i, h => by
      have ih := buildPoints_ids u ts es ms.tail (i + 1) (by simpa using h)
      show i :: (buildPoints u (i + 1) ts es ms.tail).map (fun p => p.id) =
        List.range' i (ts.length + 1)
      rw [ih, List.range'_succ]

/-- Claim C7 as stated is false on the code: supplying the empty
    metadata list together with one text (lengths 0 and 1 differ) does
    not fail, because the Python guard tests the truthiness of metadata
    before its length, and the empty list is falsy; the call succeeds
    and stores the point with an empty payload metadata. -/
theorem C7_counterexample :
    ((some ([] : List (List (String × String)))).getD []).length = 0 ∧
    (["t"] : List String).length = 1 ∧
    VectorStore.add_documents ⟨[], 0⟩ ["t"] [[1]] (some []) =
      Except.ok ⟨[⟨0, [1], "t", []⟩], 1⟩ :=
  ⟨rfl, rfl, rfl⟩

/-- Claim C7 (amended): add_documents fails with the shape-mismatch
    error, without touching the store, whenever the number of texts
    differs from the number of vectors, or when metadata is supplied
    non-empty with a length different from the number of texts (an empty
    metadata list is falsy in Python and bypasses the check); on success
    it appends one point per text with consecutive fresh ids, never
    updating an existing point, so all previous points survive unchanged
    and re-ingesting identical text grows the collection by duplicate
    points; whenever the existing ids are below the counter and distinct,
    all ids remain distinct. -/
theorem C7_amended (store : Store) (texts : List String)
    (embeddings : List (List Int))
    (metadata : Option (List (List (String × String)))) :
    (texts.length ≠ embeddings.length →
      VectorStore.add_documents store texts embeddings metadata =
        .error "Number of texts and embeddings must match") ∧
    (texts.length = embeddings.length →
      pyTruthy metadata = true →
      (metadata.getD []).length ≠ texts.length →
      VectorStore.add_documents store texts embeddings metadata =
        .error "Number of metadata items must match number of texts") ∧
    (texts.length = embeddings.length →
      (pyTruthy metadata = true →
        (metadata.getD []).length = texts.length) →
      ∃ st', VectorStore.add_documents store texts embeddings metadata =
          .ok st' ∧
        st'.points.map (fun p => p.id) =
          store.points.map (fun p => p.id) ++
            List.range' store.nextId texts.length ∧
        (∀ p ∈ store.points, p ∈ st'.points) ∧
        st'.points.length = store.points.length + texts.length ∧
        ((∀ p ∈ store.points, p.id < store.nextId) →
          (store.points.map (fun p => p.id)).Nodup →
          (st'.points.map (fun p => p.id)).Nodup)) := by
  refine ⟨?_, ?_, ?_⟩
  · intro h
    unfold VectorStore.add_documents
    rw [if_pos h]
  · intro hlen htru hmeta
    unfold VectorStore.add_documents
    rw [if_neg (by simp [hlen]), if_pos ⟨htru, hmeta⟩]
  · intro hlen hmeta
    have hguard : ¬(pyTruthy metadata = true ∧
        (metadata.getD []).length ≠ texts.length) := by
      rintro ⟨h1, h2⟩
      exact h2 (hmeta h1)
    refine ⟨⟨store.points ++
      buildPoints (pyTruthy metadata) store.nextId texts embeddings
        (metadata.getD []), store.nextId + texts.length⟩, ?_, ?_, ?_, ?_, ?_⟩
    · unfold VectorStore.add_documents
      rw [if_neg (by simp [hlen]), if_neg hguard]
    · show (store.points ++ buildPoints (pyTruthy metadata) store.nextId
        texts embeddings (metadata.getD [])).map (fun p => p.id) = _
      rw [List.map_append, buildPoints_ids (pyTruthy metadata) texts
        embeddings (metadata.getD []) store.nextId hlen]
    · intro p hp
      exact List.mem_append.mpr (Or.inl hp)
    · show (store.points ++ _).length = _
      rw [List.length_append]
      have hids := buildPoints_ids (pyTruthy metadata) texts embeddings
        (metadata.getD []) store.nextId hlen
      have := congrArg List.length hids
      rw [List.length_map, List.length_range'] at this
      rw [this]
    · intro hlt hnd
      show ((store.points ++ _).map (fun p => p.id)).Nodup
      rw [List.map_append, buildPoints_ids (pyTruthy metadata) texts
        embeddings (metadata.getD []) store.nextId hlen]
      rw [List.nodup_append]
      refine ⟨hnd, List.nodup_range' _ _ _ (by norm_num), ?_⟩
      intro a ha ha2
      obtain ⟨p, hp, rfl⟩ := List.mem_map.mp ha
      have h1 := hlt p hp
      have h2 := (List.mem_range'_1.mp ha2).1
      omega

/-- Witness for C7_amended: adding the same text twice to a store that
    already holds a point yields three points with distinct ids. -/
theorem C7_amended_witness :
    ∃ st', VectorStore.add_documents ⟨[⟨5, [2], "old", []⟩], 6⟩
        ["a", "a"] [[1], [1]] none = .ok st' ∧
      st'.points.map (fun p => p.id) =
        ([⟨5, [2], "old", []⟩] : List StoredPoint).map (fun p => p.id) ++
          List.range' 6 (["a", "a"] : List String).length ∧
      (∀ p ∈ ([⟨5, [2], "old", []⟩] : List StoredPoint), p ∈ st'.points) ∧
      st'.points.length = ([⟨5, [2], "old", []⟩] : List StoredPoint).length +
        (["a", "a"] : List String).length ∧
      ((∀ p ∈ ([⟨5, [2], "old", []⟩] : List StoredPoint), p.id < 6) →
        (([⟨5, [2], "old", []⟩] : List StoredPoint).map
          (fun p => p.id)).Nodup →
        (st'.points.map (fun p => p.id)).Nodup) :=
  (C7_amended ⟨[⟨5, [2], "old", []⟩], 6⟩ ["a", "a"] [[1], [1]] none).2.2
    rfl (by decide)

/-- A value of the collection-info dict. -/
inductive IVal where
  | str : String → IVal
  | nat : Nat → IVal
deriving DecidableEq, Repr

/-- The statistics of the underlying client response used by
    get_collection_info. -/
structure CollectionInfo where
  vectors_count : Nat
  points_count : Nat
  status : String
deriving DecidableEq, Repr

/-- VectorStore.get_collection_info, with the client call
    self.client.get_collection modelled by its outcome: the try block
    builds the four-key dict from the response, and the except block
    turns any failure into an empty dict. -/
def VectorStore.get_collection_info (collection_name : String)
    (fetch : Except String CollectionInfo) : List (String × IVal) :=
  match fetch with
  | .error _ => []
  | .ok info =>
    [("name", .str collection_name),
     ("vectors_count", .nat info.vectors_count),
     ("points_count", .nat info.points_count),
     ("status", .str info.status)]

/-- Claim C8: get_collection_info never propagates an error: every
    underlying failure yields the empty mapping, and every success
    yields a mapping with exactly the keys name, vectors_count,
    points_count and status, in that order. -/
theorem C8_collection_info (collection_name : String) :
    (∀ e : String,
      VectorStore.get_collection_info collection_name (.error e) = []) ∧
    (∀ info : CollectionInfo,
      (VectorStore.get_collection_info collection_name
        (.ok info)).map Prod.fst =
        ["name", "vectors_count", "points_count", "status"]) :=
  ⟨fun _ => rfl, fun _ => rfl⟩


/-! ## Retriever orchestrator: src/phase1-foundation/rag_pipeline/retriever.py -/

/-- A formatted search result as returned by VectorStore.search and
    consumed by the retriever: text, similarity score and metadata.  The
    score is a float in the source; it is never computed on by this
    code, so it is carried as an opaque integer token. -/
structure SearchResult where
  text : String
  score : Int
  metadata : List (String × String)
deriving DecidableEq, Repr

/-- A value of the dict returned by RAGRetriever.query. -/
inductive QVal where
  | str : String → QVal
  | docs : List SearchResult → QVal
  | nat : Nat → QVal
deriving DecidableEq, Repr

/-- RAGRetriever.query (lines 158-193), modelled over the outcome of the
    retrieve call and with generate_response (the LLM round trip) as an
    explicit function parameter.  The result dict is represented as a
    key-value list to make its key set observable: the empty-retrieval
    branch returns the fixed three-key dict, and the non-empty branch
    calls the generator and returns the four-key dict. -/
def RAGRetriever.query (retrieved_docs : List SearchResult)
    (generate_response : String → List SearchResult → String)
    (question : String) : List (String × QVal) :=
  if retrieved_docs.isEmpty then
    [("answer", .str "I couldn\x27t find any relevant information to answer your question."),
     ("sources", .docs []),
     ("query", .str question)]
  else
    [("answer", .str (generate_response question retrieved_docs)),
     ("sources", .docs retrieved_docs),
     ("query", .str question),
     ("num_sources", .nat retrieved_docs.length)]

/-- Claim C4 as stated is false on the code: when retrieval is empty the
    returned dict has only the keys answer, sources and query: the
    num_sources key is absent from the short-circuit branch. -/
theorem C4_counterexample :
    (RAGRetriever.query [] (fun _ _ => "") "hi").map Prod.fst =
        ["answer", "sources", "query"] ∧
    "num_sources" ∉ (RAGRetriever.query [] (fun _ _ => "") "hi").map
      Prod.fst := by
  refine ⟨rfl, ?_⟩
  decide

/-- Claim C4 (amended): if retrieve returns an empty result list, query
    returns the fixed could-not-find answer with an empty sources list
    and the three keys answer, sources and query (no num_sources), and
    the result does not depend on the generation provider, which is
    therefore never invoked; if retrieval is non-empty the returned dict
    has exactly the keys answer, sources, query and num_sources. -/
theorem C4_amended (g1 g2 : String → List SearchResult → String)
    (question : String) (retrieved_docs : List SearchResult) :
    (retrieved_docs = [] →
      RAGRetriever.query retrieved_docs g1 question =
        [("answer", QVal.str "I couldn\x27t find any relevant information to answer your question."),
         ("sources", QVal.docs []),
         ("query", QVal.str question)] ∧
      RAGRetriever.query retrieved_docs g1 question =
        RAGRetriever.query retrieved_docs g2 question) ∧
    (retrieved_docs ≠ [] →
      (RAGRetriever.query retrieved_docs g1 question).map Prod.fst =
        ["answer", "sources", "query", "num_sources"]) := by
  constructor
  · rintro rfl
    exact ⟨rfl, rfl⟩
  · intro hne
    cases retrieved_docs with
    | nil => exact absurd rfl hne
    | cons d r => rfl

/-- Witness for C4_amended: a concrete empty retrieval produces the
    fixed three-key dict, independently of the generator. -/
theorem C4_amended_witness :
    RAGRetriever.query [] (fun _ _ => "") "hi" =
      [("answer", QVal.str "I couldn\x27t find any relevant information to answer your question."),
       ("sources", QVal.docs []),
       ("query", QVal.str "hi")] ∧
    RAGRetriever.query [] (fun _ _ => "") "hi" =
      RAGRetriever.query [] (fun _ _ => "x") "hi" :=
  (C4_amended (fun _ _ => "") (fun _ _ => "x") "hi" []).1 rfl

/-! ## Claim C10: falsy fallbacks to configured defaults -/

namespace Settings

/-- shared/config/settings.py default CHUNK_SIZE. -/
def CHUNK_SIZE : Nat := 1000

/-- shared/config/settings.py default CHUNK_OVERLAP. -/
def CHUNK_OVERLAP : Nat := 200

/-- shared/config/settings.py default TOP_K_RESULTS. -/
def TOP_K_RESULTS : Nat := 5

end Settings

/-- The Python idiom x or default over an optional integer argument:
    None and 0 are both falsy and fall back to the default. -/
def pyOrNat (x : Option Nat) (d : Nat) : Nat :=
  match x with
  | none => d
  | some n => if n = 0 then d else n

/-- Line 90 of retriever.py: top_k = top_k or settings.TOP_K_RESULTS. -/
def RAGRetriever.retrieve_top_k (top_k : Option Nat) : Nat :=
  pyOrNat top_k Settings.TOP_K_RESULTS

/-- Line 129 of vector_store.py: top_k = top_k or
    settings.TOP_K_RESULTS. -/
def VectorStore.search_top_k (top_k : Option Nat) : Nat :=
  pyOrNat top_k Settings.TOP_K_RESULTS

/-- Lines 24-25 of document_processor.py: the constructor falls back to
    settings.CHUNK_SIZE and settings.CHUNK_OVERLAP on falsy arguments. -/
def DocumentProcessor.init (chunk_size chunk_overlap : Option Nat) :
    DocumentProcessor :=
  ⟨pyOrNat chunk_size Settings.CHUNK_SIZE,
   pyOrNat chunk_overlap Settings.CHUNK_OVERLAP⟩

/-- Claim C10: passing top_k of 0 to retrieve or to search is treated
    exactly like leaving it unset: both resolve to the configured
    default 5, and no caller can ever request zero results; the same
    falsy fallback applies to chunk_size 0 and chunk_overlap 0 in the
    DocumentProcessor constructor, which then equals the default
    configuration of 1000 and 200. -/
theorem C10_falsy_defaults :
    RAGRetriever.retrieve_top_k (some 0) = RAGRetriever.retrieve_top_k none ∧
    RAGRetriever.retrieve_top_k (some 0) = 5 ∧
    VectorStore.search_top_k (some 0) = VectorStore.search_top_k none ∧
    VectorStore.search_top_k (some 0) = 5 ∧
    (∀ k : Option Nat, 0 < RAGRetriever.retrieve_top_k k ∧
      0 < VectorStore.search_top_k k) ∧
    DocumentProcessor.init (some 0) (some 0) =
      DocumentProcessor.init none none ∧
    DocumentProcessor.init (some 0) (some 0) = ⟨1000, 200⟩ := by
  refine ⟨rfl, rfl, rfl, rfl, ?_, rfl, rfl⟩
  intro k
  have h : 0 < pyOrNat k Settings.TOP_K_RESULTS := by
    cases k with
    | none => decide
    | some n =>
      by_cases h0 : n = 0
      · rw [h0]
        decide
      · show 0 < (if n = 0 then Settings.TOP_K_RESULTS else n)
        rw [if_neg h0]
        omega
  exact ⟨h, h⟩

end RAG
